import Mathlib

/-!
Shallow embedding of the heads-up poker equity engine in
`src/lib/server_eval7_multi.py`.

Modelling decisions:
* Python floats are modelled as exact rationals (`ℚ`); machine rounding is
  outside the model.
* The external collaborators (`eval7.evaluate`, `eval7.HandRange`,
  `eval7.Card` parsing, and the stdlib `random` module) are modelled as
  explicit parameters collected in the `Externals` structure; the RNG is an
  abstract deterministic stream of draws in `[0,1)` together with an abstract
  shuffle that is constrained to permute its input, mirroring
  `random.Random.random` and `random.Random.shuffle`.
* Python exceptions are modelled with `Except Err`; the constructors of `Err`
  name the distinct raise sites of the source file.
-/

/-- A card: one of 52 `(rank, suit)` pairs, mirroring `eval7.Card` values. -/
structure Card where
  rank : Fin 13
  suit : Fin 4
deriving DecidableEq

/-- The 52-card deck, mirroring `eval7.Deck()`. -/
def Deck : List Card :=
  (List.finRange 13).flatMap (fun r => (List.finRange 4).map (fun s => ⟨r, s⟩))

/-- Error kinds, one per distinct raise site in the source. -/
inductive Err where
  | badHandLength
  | badCardCode
  | badBoard
  | blockedFixed
  | unsupportedItem
  | noLiveCombos
  | noCompletedTrials
deriving DecidableEq

instance {ε α : Type} [DecidableEq ε] [DecidableEq α] : DecidableEq (Except ε α) :=
  fun x y =>
    match x, y with
    | .error a, .error b => decidable_of_iff (a = b) (by simp)
    | .ok a, .ok b => decidable_of_iff (a = b) (by simp)
    | .error _, .ok _ => isFalse (by simp)
    | .ok _, .error _ => isFalse (by simp)

/-- The RNG handle: an abstract deterministic stream of uniform draws in
`[0,1)` (for `rng.random()`) plus an abstract permutation-producing shuffle
(for `rng.shuffle`), with a step counter sequencing the calls. -/
structure Rng where
  draws : Nat → ℚ
  shuf : Nat → List Card → List Card
  k : Nat
  draws_lb : ∀ n, 0 ≤ draws n
  draws_ub : ∀ n, draws n < 1
  shuf_perm : ∀ n l, List.Perm (shuf n l) l

/-- Consume one RNG step. -/
def advance (rng : Rng) : Rng :=
  ⟨rng.draws, rng.shuf, rng.k + 1, rng.draws_lb, rng.draws_ub, rng.shuf_perm⟩

/-- One element of `eval7.HandRange`'s iteration, as shape-sniffed by
`Sampler.sample`: a `(Card, Card, weight)` triple, a `((Card, Card), weight)`
nested tuple, or an unsupported shape. -/
inductive RangeItem where
  | triple : Card → Card → ℚ → RangeItem
  | pair : Card → Card → ℚ → RangeItem
  | unsupported : RangeItem
deriving DecidableEq

/-- External collaborators of the core: the hand evaluator, the range parser,
card-code parsing, and the seeded RNG constructor of the `random` module. -/
structure Externals where
  evalFn : List Card → Int
  rangeParse : List Char → List RangeItem
  cardParse : List Char → Option Card
  seedFn : Int → Rng

/-- `best5_eval`: delegate to the external evaluator. -/
def best5_eval (ext : Externals) (sevenCards : List Card) : Int :=
  ext.evalFn sevenCards

/-- `random.Random(seed)`: a deterministic stream for an explicit seed,
ambient entropy otherwise. -/
def mkRandom (ext : Externals) (seed : Option Int) (entropy : Rng) : Rng :=
  match seed with
  | some s => ext.seedFn s
  | none => entropy

/-- Python whitespace as stripped by `str.strip()`. -/
def isPySpace (c : Char) : Bool :=
  c == ' ' || c == '\t' || c == '\n' || c == '\r' || c == '\x0b' || c == '\x0c'

/-- `str.strip()`: drop leading and trailing whitespace. -/
def pyStrip (s : List Char) : List Char :=
  ((s.dropWhile isPySpace).reverse.dropWhile isPySpace).reverse

/-- `parse_two_card_hand`: strip, require exactly 4 characters, parse the two
2-character card codes. -/
def parse_two_card_hand (ext : Externals) (s : List Char) : Except Err (List Card) :=
  if (pyStrip s).length = 4 then
    match ext.cardParse ((pyStrip s).take 2) with
    | none => .error .badCardCode
    | some c1 =>
      match ext.cardParse ((pyStrip s).drop 2) with
      | none => .error .badCardCode
      | some c2 => .ok [c1, c2]
  else .error .badHandLength

/-- `deal_remaining`: filter the dead cards out of the deck, shuffle, take the
first `n`. -/
def deal_remaining (dead : List Card) (n : Nat) (rng : Rng) : List Card × Rng :=
  ((rng.shuf rng.k (Deck.filter (fun c => decide (c ∉ dead)))).take n, advance rng)

/-- The `Sampler` dataclass after `__post_init__`: either a parsed fixed
two-card hand or the item list of an `eval7.HandRange`. -/
inductive Sampler where
  | fixedS : List Card → Sampler
  | rangeS : List RangeItem → Sampler
deriving DecidableEq

/-- The live-list construction inside `Sampler.sample`: walk the range items
in order; an unsupported shape raises; entries with a dead card or two equal
cards are skipped; everything else is appended with its weight unchecked. -/
def buildLive (dead : List Card) : List RangeItem → Except Err (List (List Card × ℚ))
  | [] => .ok []
  | .unsupported :: _ => .error .unsupportedItem
  | .triple c1 c2 w :: rest =>
    if c1 ∈ dead ∨ c2 ∈ dead then buildLive dead rest
    else if c1 = c2 then buildLive dead rest
    else (buildLive dead rest).map (fun l => ([c1, c2], w) :: l)
  | .pair c1 c2 w :: rest =>
    if c1 ∈ dead ∨ c2 ∈ dead then buildLive dead rest
    else if c1 = c2 then buildLive dead rest
    else (buildLive dead rest).map (fun l => ([c1, c2], w) :: l)

/-- `sum(w for _, w in live)`. -/
def sumW (live : List (List Card × ℚ)) : ℚ :=
  (live.map (fun e => e.2)).sum

/-- The accumulator walk of the weighted draw: return the first entry whose
cumulative weight `acc` satisfies `r <= acc` (the source's comparison). -/
def walkSel (r : ℚ) : ℚ → List (List Card × ℚ) → Option (List Card × ℚ)
  | _, [] => none
  | a, e :: t => if r ≤ a + e.2 then some e else walkSel r (a + e.2) t

/-- The weighted-draw selection of `Sampler.sample`: the accumulator walk,
falling back to the last live entry (the source's `live[-1]` fallback). -/
def selectWeighted (live : List (List Card × ℚ)) (r : ℚ) : List Card × ℚ :=
  (walkSel r 0 live).getD (live.getLastD ([], 0))

/-- `Sampler.sample`: a fixed hand fails when blocked and is returned intact
otherwise; a range builds the live list, fails when it is empty, then draws by
cumulative weight using `r = rng.random() * total_w`. -/
def Sampler.sample (smp : Sampler) (rng : Rng) (dead : List Card) :
    Except Err (List Card × Rng) :=
  match smp with
  | .fixedS fx =>
    if fx.any (fun c => decide (c ∈ dead)) then .error .blockedFixed
    else .ok (fx, rng)
  | .rangeS items =>
    match buildLive dead items with
    | .error e => .error e
    | .ok live =>
      if live = [] then .error .noLiveCombos
      else .ok ((selectWeighted live (rng.draws rng.k * sumW live)).1, advance rng)

/-- The delimiter characters of `detect_is_range`. -/
def delims : List Char := [',', ';', '+', '(', ')', ' ']

/-- `detect_is_range`: a stripped 4-character string is a range exactly when
it contains a delimiter; any other length is a range. -/
def detect_is_range (s : List Char) : Bool :=
  if (pyStrip s).length = 4 then delims.any (fun ch => decide (ch ∈ pyStrip s))
  else true

/-- `Sampler.__init__` on a text source: dispatch on `detect_is_range`. -/
def mkSampler (ext : Externals) (s : List Char) : Except Err Sampler :=
  if detect_is_range s then .ok (.rangeS (ext.rangeParse s))
  else (parse_two_card_hand ext s).map Sampler.fixedS

/-- A hero/villain source of `equity_hu`: text or an existing `Sampler`. -/
def mkSamplerSrc (ext : Externals) : Sum (List Char) Sampler → Except Err Sampler
  | .inl s => mkSampler ext s
  | .inr smp => .ok smp

/-- The three trial outcomes. -/
inductive Outcome where
  | heroWin
  | villWin
  | tie
deriving DecidableEq

/-- The win/tie counters of the trial loop. -/
structure Counters where
  h_w : Nat
  v_w : Nat
  ties : Nat
deriving DecidableEq

def initCounters : Counters := ⟨0, 0, 0⟩

/-- Increment the counter matching a trial outcome; a skipped trial (`none`)
leaves every counter unchanged. -/
def applyOutcome (c : Counters) : Option Outcome → Counters
  | none => c
  | some .heroWin => ⟨c.h_w + 1, c.v_w, c.ties⟩
  | some .villWin => ⟨c.h_w, c.v_w + 1, c.ties⟩
  | some .tie => ⟨c.h_w, c.v_w, c.ties + 1⟩

/-- The tail of one trial after hole cards are fixed: complete the board,
evaluate both 7-card hands, classify. -/
def trialRest (ext : Externals) (hero vill board : List Card) (rng : Rng) :
    Except Err (Option Outcome × Rng) :=
  let p := deal_remaining (hero ++ vill ++ board) (5 - board.length) rng
  let fullBoard := board ++ p.1
  let hs := best5_eval ext (hero ++ fullBoard)
  let vs := best5_eval ext (vill ++ fullBoard)
  .ok (some (if hs > vs then Outcome.heroWin else if vs > hs then Outcome.villWin else Outcome.tie), p.2)

/-- One iteration of the trial loop of `equity_hu`: sample hero, sample
villain, on a card collision resample the villain exactly once, on a second
collision skip the trial (`none`). -/
def trial (ext : Externals) (hS vS : Sampler) (board : List Card) (rng : Rng) :
    Except Err (Option Outcome × Rng) :=
  match Sampler.sample hS rng board with
  | .error e => .error e
  | .ok (hero, rng1) =>
    match Sampler.sample vS rng1 (board ++ hero) with
    | .error e => .error e
    | .ok (v1, rng2) =>
      if (hero ++ v1 ++ board).Nodup then trialRest ext hero v1 board rng2
      else
        match Sampler.sample vS rng2 (board ++ hero) with
        | .error e => .error e
        | .ok (v2, rng3) =>
          if (hero ++ v2 ++ board).Nodup then trialRest ext hero v2 board rng3
          else .ok (none, rng3)

/-- `for _ in range(iters)`: run the trials, threading the RNG and counters;
a raised error aborts the whole loop as in Python. -/
def runTrials (ext : Externals) (hS vS : Sampler) (board : List Card) :
    Nat → Counters → Rng → Except Err (Counters × Rng)
  | 0, c, rng => .ok (c, rng)
  | Nat.succ n, c, rng =>
    match trial ext hS vS board rng with
    | .error e => .error e
    | .ok (o, rng') => runTrials ext hS vS board n (applyOutcome c o) rng'

/-- The returned dictionary of `equity_hu`. -/
structure EquityResult where
  hero_equity : ℚ
  villain_equity : ℚ
  hero_wins : Nat
  villain_wins : Nat
  ties : Nat
  iters : Nat
deriving DecidableEq

/-- The finalization of `equity_hu` for a positive completed-trial count. -/
def mkResult (c : Counters) : EquityResult :=
  ⟨((c.h_w : ℚ) + (1 / 2) * (c.ties : ℚ)) / ((c.h_w + c.v_w + c.ties : ℕ) : ℚ),
   ((c.v_w : ℚ) + (1 / 2) * (c.ties : ℚ)) / ((c.h_w + c.v_w + c.ties : ℕ) : ℚ),
   c.h_w, c.v_w, c.ties,
   c.h_w + c.v_w + c.ties⟩

/-- `equity_hu`: build both samplers, validate the board length, run the trial
loop, and finalize; zero completed trials raise, otherwise the result reports
the completed-trial count as `iters`. -/
def equity_hu (ext : Externals) (hero_src vill_src : Sum (List Char) Sampler)
    (board : Option (List Card)) (iters : Nat) (seed : Option Int) (entropy : Rng) :
    Except Err EquityResult :=
  match mkSamplerSrc ext hero_src with
  | .error e => .error e
  | .ok hS =>
    match mkSamplerSrc ext vill_src with
    | .error e => .error e
    | .ok vS =>
      if (board.getD []).length = 0 ∨ (board.getD []).length = 3 ∨
          (board.getD []).length = 4 ∨ (board.getD []).length = 5 then
        match runTrials ext hS vS (board.getD []) iters initCounters (mkRandom ext seed entropy) with
        | .error e => .error e
        | .ok (c, _) =>
          if c.h_w + c.v_w + c.ties = 0 then .error .noCompletedTrials
          else .ok (mkResult c)
      else .error .badBoard

/-- Cumulative-weight pairing used to state the spec's selection rules. -/
def cumPairs (a : ℚ) : List (List Card × ℚ) → List ((List Card × ℚ) × ℚ)
  | [] => []
  | e :: t => (e, a + e.2) :: cumPairs (a + e.2) t

/-- Modelled from the spec: the first combo whose cumulative weight strictly
exceeds `r` (the selection rule the spec states for the weighted draw). -/
def specFirstGT (live : List (List Card × ℚ)) (r : ℚ) : Option (List Card × ℚ) :=
  ((cumPairs 0 live).find? (fun p => decide (r < p.2))).map (fun p => p.1)

/-- Modelled from the spec, amended: the first combo whose cumulative weight
is greater than or equal to `r`. -/
def specFirstGE (live : List (List Card × ℚ)) (r : ℚ) : Option (List Card × ℚ) :=
  ((cumPairs 0 live).find? (fun p => decide (r ≤ p.2))).map (fun p => p.1)

/-! ## Concrete values used by witnesses and counterexamples -/

/-- A concrete RNG whose draws are all `0` and whose shuffle is the identity. -/
def rng0 : Rng :=
  ⟨fun _ => 0, fun _ l => l, 0,
   fun _ => le_refl 0, fun _ => by norm_num, fun _ l => List.Perm.refl l⟩

/-- A concrete RNG whose draws are all `1/2` and whose shuffle is the identity. -/
def rngHalf : Rng :=
  ⟨fun _ => 1 / 2, fun _ l => l, 0,
   fun _ => by norm_num, fun _ => by norm_num, fun _ l => List.Perm.refl l⟩

/-- Trivial instantiation of the external collaborators. -/
def ext0 : Externals :=
  ⟨fun _ => 0, fun _ => [], fun _ => none, fun _ => rng0⟩

def cA : Card := ⟨0, 0⟩
def cB : Card := ⟨0, 1⟩
def cC : Card := ⟨0, 2⟩
def cD : Card := ⟨0, 3⟩

/-- A concrete 5-card board. -/
def board5 : List Card := [⟨1, 0⟩, ⟨1, 1⟩, ⟨1, 2⟩, ⟨1, 3⟩, ⟨2, 0⟩]

/-- A concrete fixed hero hand disjoint from `board5`. -/
def heroF : Sampler := .fixedS [⟨2, 1⟩, ⟨2, 2⟩]

/-- A concrete fixed villain hand disjoint from `board5` and `heroF`. -/
def villF : Sampler := .fixedS [⟨2, 3⟩, ⟨3, 0⟩]

/-! ## Helper lemmas -/

lemma sumW_cons (x : List Card × ℚ) (t : List (List Card × ℚ)) :
    sumW (x :: t) = x.2 + sumW t := by
  simp [sumW]

lemma getLastD_mem {α : Type} : ∀ (l : List α) (d : α), l ≠ [] → l.getLastD d ∈ l := by
  intro l
  induction l with
  | nil => intro d h; exact absurd rfl h
  | cons a t ih =>
    intro d _
    rw [List.getLastD_cons]
    cases t with
    | nil => simp [List.getLastD]
    | cons b t2 => exact List.mem_cons_of_mem a (ih a (by simp))

lemma walkSel_mem : ∀ (l : List (List Card × ℚ)) (r a : ℚ) (e : List Card × ℚ),
    walkSel r a l = some e → e ∈ l := by
  intro l
  induction l with
  | nil => intro r a e h; simp [walkSel] at h
  | cons x t ih =>
    intro r a e h
    simp only [walkSel] at h
    split at h
    · rw [Option.some.injEq] at h; subst h; exact List.mem_cons_self x t
    · exact List.mem_cons_of_mem x (ih r (a + x.2) e h)

lemma walkSel_pos : ∀ (l : List (List Card × ℚ)) (r a : ℚ) (e : List Card × ℚ),
    a < r → walkSel r a l = some e → 0 < e.2 := by
  intro l
  induction l with
  | nil => intro r a e _ h; simp [walkSel] at h
  | cons x t ih =>
    intro r a e ha h
    simp only [walkSel] at h
    split at h
    · rename_i hle
      rw [Option.some.injEq] at h
      subst h
      linarith
    · rename_i hgt
      exact ih r (a + x.2) e (by linarith [not_le.mp hgt]) h

lemma walkSel_exists : ∀ (l : List (List Card × ℚ)) (r a : ℚ),
    r ≤ a + sumW l → l ≠ [] → ∃ e, walkSel r a l = some e := by
  intro l
  induction l with
  | nil => intro r a _ h; exact absurd rfl h
  | cons x t ih =>
    intro r a hle _
    simp only [walkSel]
    by_cases h : r ≤ a + x.2
    · exact ⟨x, by rw [if_pos h]⟩
    · cases t with
      | nil =>
        exfalso
        rw [sumW_cons] at hle
        simp [sumW] at hle
        exact h (by linarith)
      | cons y t2 =>
        have hle' : r ≤ (a + x.2) + sumW (y :: t2) := by
          rw [sumW_cons] at hle
          linarith
        obtain ⟨e, he⟩ := ih r (a + x.2) hle' (by simp)
        exact ⟨e, by rw [if_neg h]; exact he⟩

lemma selectWeighted_mem (live : List (List Card × ℚ)) (r : ℚ) (h : live ≠ []) :
    selectWeighted live r ∈ live := by
  unfold selectWeighted
  cases hw : walkSel r 0 live with
  | none => simpa using getLastD_mem live ([], 0) h
  | some e =>
    rw [Option.getD_some]
    exact walkSel_mem live r 0 e hw

lemma buildLive_sound : ∀ (items : List RangeItem) (dead : List Card)
    (live : List (List Card × ℚ)), buildLive dead items = .ok live →
    ∀ e ∈ live, ∀ c ∈ e.1, c ∉ dead := by
  intro items
  induction items with
  | nil =>
    intro dead live h e he
    simp only [buildLive, Except.ok.injEq] at h
    subst h
    simp at he
  | cons it rest ih =>
    intro dead live h e he c hc
    cases it with
    | unsupported => simp [buildLive] at h
    | triple c1 c2 w =>
      simp only [buildLive] at h
      by_cases hdead : c1 ∈ dead ∨ c2 ∈ dead
      · rw [if_pos hdead] at h
        exact ih dead live h e he c hc
      · rw [if_neg hdead] at h
        by_cases heq : c1 = c2
        · rw [if_pos heq] at h
          exact ih dead live h e he c hc
        · rw [if_neg heq] at h
          cases hrec : buildLive dead rest with
          | error err => rw [hrec] at h; simp [Except.map] at h
          | ok l =>
            rw [hrec] at h
            simp only [Except.map, Except.ok.injEq] at h
            subst h
            rw [List.mem_cons] at he
            rcases he with rfl | he
            · simp only [List.mem_cons, List.mem_singleton] at hc
              push_neg at hdead
              rcases hc with rfl | rfl | hfalse
              · exact hdead.1
              · exact hdead.2
              · simp at hfalse
            · exact ih dead l hrec e he c hc
    | pair c1 c2 w =>
      simp only [buildLive] at h
      by_cases hdead : c1 ∈ dead ∨ c2 ∈ dead
      · rw [if_pos hdead] at h
        exact ih dead live h e he c hc
      · rw [if_neg hdead] at h
        by_cases heq : c1 = c2
        · rw [if_pos heq] at h
          exact ih dead live h e he c hc
        · rw [if_neg heq] at h
          cases hrec : buildLive dead rest with
          | error err => rw [hrec] at h; simp [Except.map] at h
          | ok l =>
            rw [hrec] at h
            simp only [Except.map, Except.ok.injEq] at h
            subst h
            rw [List.mem_cons] at he
            rcases he with rfl | he
            · simp only [List.mem_cons, List.mem_singleton] at hc
              push_neg at hdead
              rcases hc with rfl | rfl | hfalse
              · exact hdead.1
              · exact hdead.2
              · simp at hfalse
            · exact ih dead l hrec e he c hc

lemma walkSel_eq_find (r : ℚ) : ∀ (l : List (List Card × ℚ)) (a : ℚ),
    walkSel r a l = ((cumPairs a l).find? (fun p => decide (r ≤ p.2))).map (fun p => p.1) := by
  intro l
  induction l with
  | nil => intro a; rfl
  | cons e t ih =>
    intro a
    by_cases h : r ≤ a + e.2
    · simp [walkSel, cumPairs, List.find?_cons, h]
    · simp [walkSel, cumPairs, List.find?_cons, h, ih]

lemma Deck_nodup : Deck.Nodup := by decide

/-! ## Claims -/

/-- Claim C1: whenever `equity_hu` returns a result (completed trials
positive), `hero_equity + villain_equity` equals `1` (exactly, in the
rational model of the float arithmetic, hence within any tolerance). -/
theorem claim_C1 (ext : Externals) (hsrc vsrc : Sum (List Char) Sampler)
    (board : Option (List Card)) (iters : Nat) (seed : Option Int) (entropy : Rng)
    (r : EquityResult)
    (h : equity_hu ext hsrc vsrc board iters seed entropy = .ok r) :
    r.hero_equity + r.villain_equity = 1 := by
  unfold equity_hu at h
  split at h
  · simp at h
  · split at h
    · simp at h
    · split at h
      · split at h
        · simp at h
        · split at h
          · simp at h
          · rename_i c rng2 heq hTot
            rw [Except.ok.injEq] at h
            subst h
            have hT : ((c.h_w + c.v_w + c.ties : ℕ) : ℚ) ≠ 0 := Nat.cast_ne_zero.mpr hTot
            simp only [mkResult]
            rw [div_add_div_same, div_eq_one_iff_eq hT]
            push_cast
            ring
      · simp at h

/-- Claim C3: with an explicit seed, `equity_hu` is bit-reproducible across
sequential calls — its result is a pure function of the arguments and in
particular does not depend on the ambient entropy source, so two calls with
identical arguments return identical counters and equities. -/
theorem claim_C3 (ext : Externals) (hsrc vsrc : Sum (List Char) Sampler)
    (board : Option (List Card)) (iters : Nat) (s : Int) (e1 e2 : Rng) :
    equity_hu ext hsrc vsrc board iters (some s) e1
      = equity_hu ext hsrc vsrc board iters (some s) e2 := rfl

/-- Claim C10: a string source is treated as a fixed two-card hand iff the
stripped string has exactly 4 characters and contains none of the delimiter
characters `,;+() `; every other string takes the range path. -/
theorem claim_C10 (ext : Externals) (s : List Char) :
    (detect_is_range s = false ↔
      ((pyStrip s).length = 4 ∧ ∀ ch ∈ pyStrip s, ch ∉ delims))
    ∧ (detect_is_range s = true → mkSampler ext s = .ok (.rangeS (ext.rangeParse s)))
    ∧ (detect_is_range s = false →
        mkSampler ext s = (parse_two_card_hand ext s).map Sampler.fixedS)
    ∧ mkSamplerSrc ext (Sum.inl s) = mkSampler ext s := by
  refine ⟨?_, ?_, ?_, rfl⟩
  · unfold detect_is_range
    by_cases hl : (pyStrip s).length = 4
    · rw [if_pos hl]
      constructor
      · intro hfalse
        refine ⟨hl, ?_⟩
        intro ch hch hd
        have hany : delims.any (fun c => decide (c ∈ pyStrip s)) = true :=
          List.any_eq_true.mpr ⟨ch, hd, by simpa using hch⟩
        rw [hany] at hfalse
        exact Bool.noConfusion hfalse
      · rintro ⟨-, hno⟩
        rw [Bool.eq_false_iff]
        intro htrue
        obtain ⟨ch, hchd, hcs⟩ := List.any_eq_true.mp htrue
        exact hno ch (by simpa using hcs) hchd
    · rw [if_neg hl]
      simp [hl]
  · intro ht
    simp [mkSampler, ht]
  · intro hf
    simp [mkSampler, hf]

/-- Claim C2: `Sampler.sample` never returns a hand containing a dead card,
for either variant; and a fixed hand that intersects the dead set fails
immediately with the blocked-fixed-hand error. -/
theorem claim_C2 :
    (∀ (smp : Sampler) (rng : Rng) (dead hand : List Card) (rng' : Rng),
        Sampler.sample smp rng dead = .ok (hand, rng') → ∀ c ∈ hand, c ∉ dead)
    ∧ (∀ (fx : List Card) (rng : Rng) (dead : List Card),
        (∃ c ∈ fx, c ∈ dead) →
        Sampler.sample (.fixedS fx) rng dead = .error .blockedFixed) := by
  constructor
  · intro smp rng dead hand rng' h c hc
    cases smp with
    | fixedS fx =>
      simp only [Sampler.sample] at h
      split at h
      · simp at h
      · rename_i hany
        rw [Except.ok.injEq, Prod.mk.injEq] at h
        obtain ⟨hh, -⟩ := h
        subst hh
        intro hcd
        exact hany (List.any_eq_true.mpr ⟨c, hc, by simpa using hcd⟩)
    | rangeS items =>
      simp only [Sampler.sample] at h
      split at h
      · simp at h
      · rename_i live hlv
        split at h
        · simp at h
        · rename_i hne
          rw [Except.ok.injEq, Prod.mk.injEq] at h
          obtain ⟨hh, -⟩ := h
          subst hh
          exact buildLive_sound items dead live hlv _
            (selectWeighted_mem live _ hne) c hc
  · intro fx rng dead ⟨c, hcfx, hcd⟩
    simp only [Sampler.sample]
    rw [if_pos (List.any_eq_true.mpr ⟨c, hcfx, by simpa using hcd⟩)]

/-- Witness for C2: a successful fixed-hand sample avoids a concrete dead
card, and a concretely blocked fixed hand fails with the blocked error. -/
theorem claim_C2_witness :
    cA ∉ ([cC] : List Card)
    ∧ Sampler.sample (.fixedS [cA, cB]) rng0 [cA] = .error .blockedFixed :=
  ⟨claim_C2.1 (.fixedS [cA, cB]) rng0 [cC] [cA, cB] rng0 rfl cA (by decide),
   claim_C2.2 [cA, cB] rng0 [cA] ⟨cA, by decide, by decide⟩⟩

/-- Claim C7: when the sampled hands collide, the villain is resampled
exactly once with the same dead set; if the cards still collide, the trial is
skipped — it returns no outcome, no error is raised for it, and a skipped
trial leaves every counter (and hence the completed-trial count) unchanged. -/
theorem claim_C7 (ext : Externals) (hS vS : Sampler) (board : List Card)
    (rng rng1 rng2 rng3 : Rng) (hero v1 v2 : List Card) (c : Counters)
    (h1 : Sampler.sample hS rng board = .ok (hero, rng1))
    (h2 : Sampler.sample vS rng1 (board ++ hero) = .ok (v1, rng2))
    (h3 : ¬ (hero ++ v1 ++ board).Nodup)
    (h4 : Sampler.sample vS rng2 (board ++ hero) = .ok (v2, rng3))
    (h5 : ¬ (hero ++ v2 ++ board).Nodup) :
    trial ext hS vS board rng = .ok (none, rng3) ∧ applyOutcome c none = c := by
  constructor
  · simp only [trial, h1, h2, h4]
    rw [if_neg h3, if_neg h5]
  · rfl

/-- Witness for C7: a fixed hero hand with an internal duplicate card forces
the collision check to fail twice, and the trial is skipped. -/
theorem claim_C7_witness :
    trial ext0 (.fixedS [cA, cA]) (.fixedS [cB, cC]) [] rng0 = .ok (none, rng0)
    ∧ applyOutcome initCounters none = initCounters :=
  claim_C7 ext0 (.fixedS [cA, cA]) (.fixedS [cB, cC]) [] rng0 rng0 rng0 rng0
    [cA, cA] [cB, cC] [cB, cC] initCounters rfl rfl (by decide) rfl (by decide)

/-- Claim C8: after the trial loop, a zero completed-trial count makes
`equity_hu` fail with the no-completed-trials error; otherwise it returns a
result whose reported `iters` equals the completed-trial count. -/
theorem claim_C8 (ext : Externals) (hS vS : Sampler) (b : List Card)
    (iters : Nat) (seed : Option Int) (entropy : Rng) (c : Counters) (rng' : Rng)
    (hb : b.length = 0 ∨ b.length = 3 ∨ b.length = 4 ∨ b.length = 5)
    (hrun : runTrials ext hS vS b iters initCounters (mkRandom ext seed entropy)
      = .ok (c, rng')) :
    (c.h_w + c.v_w + c.ties = 0 →
      equity_hu ext (Sum.inr hS) (Sum.inr vS) (some b) iters seed entropy
        = .error .noCompletedTrials)
    ∧ (c.h_w + c.v_w + c.ties ≠ 0 →
        equity_hu ext (Sum.inr hS) (Sum.inr vS) (some b) iters seed entropy
          = .ok (mkResult c)
        ∧ (mkResult c).iters = c.h_w + c.v_w + c.ties) := by
  constructor
  · intro h0
    simp only [equity_hu, mkSamplerSrc, Option.getD_some]
    rw [if_pos hb, hrun]
    show (if c.h_w + c.v_w + c.ties = 0 then
        (Except.error Err.noCompletedTrials : Except Err EquityResult)
      else .ok (mkResult c)) = .error Err.noCompletedTrials
    rw [if_pos h0]
  · intro h0
    constructor
    · simp only [equity_hu, mkSamplerSrc, Option.getD_some]
      rw [if_pos hb, hrun]
      show (if c.h_w + c.v_w + c.ties = 0 then
          (Except.error Err.noCompletedTrials : Except Err EquityResult)
        else .ok (mkResult c)) = .ok (mkResult c)
      rw [if_neg h0]
    · rfl

/-- Witness for C8: with zero iterations the loop completes no trial and
`equity_hu` fails; with one all-tie trial it returns a result reporting one
completed trial. -/
theorem claim_C8_witness :
    equity_hu ext0 (Sum.inr heroF) (Sum.inr villF) (some board5) 0 (some 0) rng0
      = .error .noCompletedTrials
    ∧ (equity_hu ext0 (Sum.inr heroF) (Sum.inr villF) (some board5) 1 (some 0) rng0
        = .ok (mkResult ⟨0, 0, 1⟩)
      ∧ (mkResult ⟨0, 0, 1⟩).iters = 0 + 0 + 1) :=
  ⟨(claim_C8 ext0 heroF villF board5 0 (some 0) rng0 initCounters
      (mkRandom ext0 (some 0) rng0) (by decide) rfl).1 rfl,
   (claim_C8 ext0 heroF villF board5 1 (some 0) rng0 ⟨0, 0, 1⟩
      (advance (mkRandom ext0 (some 0) rng0)) (by decide) rfl).2 (by decide)⟩

/-- Witness for C1: a concrete one-trial run returns a result, and its two
equities sum to `1`. -/
theorem claim_C1_witness :
    (mkResult ⟨0, 0, 1⟩).hero_equity + (mkResult ⟨0, 0, 1⟩).villain_equity = 1 :=
  claim_C1 ext0 (Sum.inr heroF) (Sum.inr villF) (some board5) 1 (some 0) rng0
    (mkResult ⟨0, 0, 1⟩) rfl

/-- Counterexample to C4 as stated: with the draw `r = 0` (a value
`random.random()` can return), the weighted draw selects the leading combo of
weight `0`, so a zero-weight combo can be the combo returned. -/
theorem claim_C4_cex :
    buildLive [] [.pair cA cB 0, .pair cC cD 1] = .ok [([cA, cB], 0), ([cC, cD], 1)]
    ∧ Sampler.sample (.rangeS [.pair cA cB 0, .pair cC cD 1]) rng0 []
        = .ok ([cA, cB], advance rng0) := by
  have hlv : buildLive [] [.pair cA cB 0, .pair cC cD 1]
      = .ok [([cA, cB], 0), ([cC, cD], 1)] := by decide
  refine ⟨hlv, ?_⟩
  simp only [Sampler.sample, hlv]
  norm_num [rng0, sumW, selectWeighted, walkSel]
  intro h
  exact absurd h (by simp)

/-- Claim C4 amended: a combo entry of weight `0` is never selected by the
weighted draw provided the RNG draw is strictly positive and the total live
weight is positive (the selected entry always has strictly positive weight
then, and the sample succeeds with that entry's combo). -/
theorem claim_C4_amended (items : List RangeItem) (dead : List Card) (rng : Rng)
    (live : List (List Card × ℚ))
    (hlv : buildLive dead items = .ok live)
    (hpos : 0 < sumW live)
    (hu : 0 < rng.draws rng.k) :
    0 < (selectWeighted live (rng.draws rng.k * sumW live)).2
    ∧ Sampler.sample (.rangeS items) rng dead
        = .ok ((selectWeighted live (rng.draws rng.k * sumW live)).1, advance rng) := by
  have hne : live ≠ [] := by
    intro hnil
    rw [hnil] at hpos
    simp [sumW] at hpos
  have hr : 0 < rng.draws rng.k * sumW live := mul_pos hu hpos
  have hrlt : rng.draws rng.k * sumW live < sumW live := by
    calc rng.draws rng.k * sumW live < 1 * sumW live :=
          mul_lt_mul_of_pos_right (rng.draws_ub rng.k) hpos
      _ = sumW live := one_mul _
  constructor
  · unfold selectWeighted
    cases hw : walkSel (rng.draws rng.k * sumW live) 0 live with
    | none =>
      exfalso
      obtain ⟨e, he⟩ := walkSel_exists live (rng.draws rng.k * sumW live) 0
        (by linarith) hne
      rw [hw] at he
      exact Option.noConfusion he
    | some e =>
      rw [Option.getD_some]
      exact walkSel_pos live _ 0 e hr hw
  · simp only [Sampler.sample]
    rw [hlv]
    simp [hne]

/-- Witness for the amended C4: a one-entry live list with weight `1`, a draw
of `1/2`: the selected entry has positive weight. -/
theorem claim_C4_witness :
    0 < (selectWeighted [([cA, cB], 1)]
          (rngHalf.draws rngHalf.k * sumW [([cA, cB], 1)])).2
    ∧ Sampler.sample (.rangeS [.pair cA cB 1]) rngHalf []
        = .ok ((selectWeighted [([cA, cB], 1)]
            (rngHalf.draws rngHalf.k * sumW [([cA, cB], 1)])).1, advance rngHalf) :=
  claim_C4_amended [.pair cA cB 1] [] rngHalf [([cA, cB], 1)] rfl
    (by norm_num [sumW]) (by norm_num [rngHalf])

/-- Counterexample to C5 as stated: with two live combos of weight `1` and a
draw of `1/2` the code's `r <= acc` rule returns the first combo (cumulative
weight `1 = r·total`), while the spec's strictly-exceeds rule would pick the
second; so the combo returned is not the first whose cumulative weight
strictly exceeds `r`. -/
theorem claim_C5_cex :
    Sampler.sample (.rangeS [.pair cA cB 1, .pair cC cD 1]) rngHalf []
        = .ok ([cA, cB], advance rngHalf)
    ∧ specFirstGT [([cA, cB], 1), ([cC, cD], 1)]
          (rngHalf.draws rngHalf.k * sumW [([cA, cB], 1), ([cC, cD], 1)])
        = some ([cC, cD], 1) := by
  have hlv : buildLive [] [.pair cA cB 1, .pair cC cD 1]
      = .ok [([cA, cB], 1), ([cC, cD], 1)] := by decide
  constructor
  · simp only [Sampler.sample, hlv]
    norm_num [rngHalf, sumW, selectWeighted, walkSel]
    intro h
    exact absurd h (by simp)
  · norm_num [specFirstGT, cumPairs, List.find?, rngHalf, sumW]

/-- Claim C5 amended: `r = rng.random() * total_live_weight` lies in
`[0, total)` whenever the total is positive; the sample returns the entry
selected by the accumulator walk; and that entry is the first combo whose
cumulative weight is greater than or equal to `r` (falling back to the last
live combo when no cumulative weight reaches `r`). -/
theorem claim_C5_amended (items : List RangeItem) (dead : List Card) (rng : Rng)
    (live : List (List Card × ℚ))
    (hlv : buildLive dead items = .ok live) (hne : live ≠ []) :
    (0 < sumW live →
      0 ≤ rng.draws rng.k * sumW live ∧ rng.draws rng.k * sumW live < sumW live)
    ∧ Sampler.sample (.rangeS items) rng dead
        = .ok ((selectWeighted live (rng.draws rng.k * sumW live)).1, advance rng)
    ∧ selectWeighted live (rng.draws rng.k * sumW live)
        = (specFirstGE live (rng.draws rng.k * sumW live)).getD (live.getLastD ([], 0)) := by
  refine ⟨?_, ?_, ?_⟩
  · intro hpos
    refine ⟨mul_nonneg (rng.draws_lb rng.k) (le_of_lt hpos), ?_⟩
    calc rng.draws rng.k * sumW live < 1 * sumW live :=
          mul_lt_mul_of_pos_right (rng.draws_ub rng.k) hpos
      _ = sumW live := one_mul _
  · simp only [Sampler.sample]
    rw [hlv]
    simp [hne]
  · unfold selectWeighted specFirstGE
    rw [walkSel_eq_find]

/-- Witness for the amended C5: concrete one-entry live list. -/
theorem claim_C5_witness :
    (0 < sumW [([cA, cB], 1)] →
      0 ≤ rngHalf.draws rngHalf.k * sumW [([cA, cB], 1)]
      ∧ rngHalf.draws rngHalf.k * sumW [([cA, cB], 1)] < sumW [([cA, cB], 1)])
    ∧ Sampler.sample (.rangeS [.pair cA cB 1]) rngHalf []
        = .ok ((selectWeighted [([cA, cB], 1)]
            (rngHalf.draws rngHalf.k * sumW [([cA, cB], 1)])).1, advance rngHalf)
    ∧ selectWeighted [([cA, cB], 1)] (rngHalf.draws rngHalf.k * sumW [([cA, cB], 1)])
        = (specFirstGE [([cA, cB], 1)]
            (rngHalf.draws rngHalf.k * sumW [([cA, cB], 1)])).getD
            (([([cA, cB], 1)] : List (List Card × ℚ)).getLastD ([], 0)) :=
  claim_C5_amended [.pair cA cB 1] [] rngHalf [([cA, cB], 1)] rfl (by decide)

/-- Counterexample to C6 as stated: `deal_remaining` has no failure path at
all — with every card dead and `n = 1` it silently returns the empty list
instead of one card or an `InsufficientCards` error. -/
theorem claim_C6_cex :
    (deal_remaining Deck 1 rng0).1 = []
    ∧ (deal_remaining Deck 1 rng0).1.length ≠ 1 := by
  constructor
  · decide
  · decide

/-- Claim C6 amended: `deal_remaining` returns exactly
`min n (number of non-dead deck cards)` cards — so exactly `n` whenever
enough cards remain, but silently fewer otherwise, never an error — and the
returned cards are pairwise distinct and all absent from the dead set. -/
theorem claim_C6_amended (dead : List Card) (n : Nat) (rng : Rng) :
    (deal_remaining dead n rng).1.length
        = min n (Deck.filter (fun c => decide (c ∉ dead))).length
    ∧ (deal_remaining dead n rng).1.Nodup
    ∧ ∀ c ∈ (deal_remaining dead n rng).1, c ∉ dead := by
  have hperm : List.Perm (rng.shuf rng.k (Deck.filter (fun c => decide (c ∉ dead))))
      (Deck.filter (fun c => decide (c ∉ dead))) := rng.shuf_perm _ _
  refine ⟨?_, ?_, ?_⟩
  · simp only [deal_remaining, List.length_take]
    rw [hperm.length_eq]
  · have hnd : (Deck.filter (fun c => decide (c ∉ dead))).Nodup := Deck_nodup.filter _
    have hnd2 : (rng.shuf rng.k (Deck.filter (fun c => decide (c ∉ dead)))).Nodup :=
      hperm.nodup_iff.mpr hnd
    exact hnd2.sublist (List.take_sublist _ _)
  · intro c hc
    simp only [deal_remaining] at hc
    have hc2 : c ∈ rng.shuf rng.k (Deck.filter (fun c => decide (c ∉ dead))) :=
      List.mem_of_mem_take hc
    have hc3 : c ∈ Deck.filter (fun c => decide (c ∉ dead)) := hperm.mem_iff.mp hc2
    simpa using (List.mem_filter.mp hc3).2

/-- Counterexample to C9 as stated: an entry whose two cards are equal is
silently skipped (the sample succeeds using the remaining entry, no error is
raised), and an entry with a negative weight is accepted into the live list
rather than rejected. -/
theorem claim_C9_cex :
    Sampler.sample (.rangeS [.triple cA cA 5, .pair cB cC 1]) rng0 []
        = .ok ([cB, cC], advance rng0)
    ∧ buildLive [] [.pair cA cB (-3)] = .ok [([cA, cB], -3)] := by
  have hlv : buildLive [] [.triple cA cA 5, .pair cB cC 1]
      = .ok [([cB, cC], 1)] := by decide
  constructor
  · simp only [Sampler.sample, hlv]
    norm_num [rng0, sumW, selectWeighted, walkSel]
  · decide

/-- Claim C9 amended: when building the live list, an entry with two equal
cards is silently dropped (no error); an entry with two distinct non-dead
cards is accepted with its weight unchecked — negative (and, in the real
code, non-finite) weights included; only a structurally unsupported entry
shape is rejected with an error. -/
theorem claim_C9_amended :
    (∀ (c : Card) (w : ℚ) (rest : List RangeItem) (dead : List Card),
      buildLive dead (.triple c c w :: rest) = buildLive dead rest
      ∧ buildLive dead (.pair c c w :: rest) = buildLive dead rest)
    ∧ (∀ (c1 c2 : Card) (w : ℚ) (rest : List RangeItem) (dead : List Card)
        (live : List (List Card × ℚ)),
        c1 ∉ dead → c2 ∉ dead → c1 ≠ c2 → buildLive dead rest = .ok live →
        buildLive dead (.triple c1 c2 w :: rest) = .ok (([c1, c2], w) :: live)
        ∧ buildLive dead (.pair c1 c2 w :: rest) = .ok (([c1, c2], w) :: live))
    ∧ (∀ (rest : List RangeItem) (dead : List Card),
        buildLive dead (.unsupported :: rest) = .error .unsupportedItem) := by
  refine ⟨?_, ?_, fun rest dead => rfl⟩
  · intro c w rest dead
    constructor
    · simp only [buildLive]
      by_cases hdead : c ∈ dead ∨ c ∈ dead
      · rw [if_pos hdead]
      · rw [if_neg hdead]
        simp
    · simp only [buildLive]
      by_cases hdead : c ∈ dead ∨ c ∈ dead
      · rw [if_pos hdead]
      · rw [if_neg hdead]
        simp
  · intro c1 c2 w rest dead live h1 h2 hne hrec
    have hdead : ¬ (c1 ∈ dead ∨ c2 ∈ dead) := by
      intro h
      rcases h with h | h
      · exact h1 h
      · exact h2 h
    constructor
    · simp only [buildLive]
      rw [if_neg hdead, if_neg hne, hrec]
      rfl
    · simp only [buildLive]
      rw [if_neg hdead, if_neg hne, hrec]
      rfl

/-- Witness for the amended C9: concrete equal-card drop, concrete
negative-weight acceptance, concrete unsupported-shape error. -/
theorem claim_C9_witness :
    buildLive [] [.triple cA cA 5] = buildLive [] []
    ∧ buildLive [] [.pair cA cB (-3)] = .ok (([cA, cB], -3) :: [])
    ∧ buildLive [] [.unsupported] = .error .unsupportedItem :=
  ⟨(claim_C9_amended.1 cA 5 [] []).1,
   ((claim_C9_amended.2.1 cA cB (-3) [] [] [] (by decide) (by decide)
      (by decide) rfl).2),
   claim_C9_amended.2.2 [] []⟩

/-- Witness for C10: the concrete string `AsKs` is detected as a fixed hand
and the sampler construction takes the fixed-hand path. -/
theorem claim_C10_witness :
    detect_is_range (['A', 's', 'K', 's'] : List Char) = false
    ∧ mkSampler ext0 (['A', 's', 'K', 's'] : List Char)
        = (parse_two_card_hand ext0 (['A', 's', 'K', 's'] : List Char)).map Sampler.fixedS :=
  ⟨(claim_C10 ext0 ['A', 's', 'K', 's']).1.mpr (by decide),
   (claim_C10 ext0 ['A', 's', 'K', 's']).2.2.1
     ((claim_C10 ext0 ['A', 's', 'K', 's']).1.mpr (by decide))⟩
